import Mathlib

/-
Verification of the SIR cellular-automaton simulation core
(`ModifiedApp.jsx`, mounted via `main.jsx`, with `App.jsx` as the
superseded variant sharing the same `getNeighbors`/`step`/`countStates`).

Cell values are the JS numbers stored in the grid:
`0` = Susceptible, `1` = Infected, `2` = Recovered.
Random draws (`Math.random()` / `seedrandom(seed)()`) are modelled as an
explicit stream `u : ℕ → ℚ` of values consumed in program order.
-/

namespace SIR

/-- A grid as in the source: an array of rows of cell values. -/
abbrev Grid := List (List ℕ)

/-- The `params` state object of the source component. -/
structure Params where
  M : ℕ
  N : ℕ
  I0 : ℕ
  T : ℕ
  r : ℕ
  beta : ℚ
  alpha : ℚ
deriving DecidableEq

/-- JS `g[x][y]`; `none` models `undefined` (row or column out of range). -/
def cellAt (g : Grid) (x y : ℕ) : Option ℕ :=
  match g.get? x with
  | some row => row.get? y
  | none => none

/-- Array access at a possibly negative index, as the JS `%` can produce:
a negative index reads `undefined`. -/
def cellAtZ (g : Grid) (x y : ℤ) : Option ℕ :=
  if 0 ≤ x ∧ 0 ≤ y then cellAt g x.toNat y.toNat else none

/-- JS `(i + m) % m`; the JS `%` operator truncates toward zero (`Int.tmod`). -/
def wrap (i : ℤ) (m : ℕ) : ℤ := Int.tmod (i + m) m

/-- The index window `[0,M) × [0,N)` traversed by the source's
`for (i < M) for (j < N)` loops. -/
def cells (p : Params) : Finset (ℕ × ℕ) := Finset.range p.M ×ˢ Finset.range p.N

/-- The record `{s, i, r}` returned by `countStates`. -/
structure Counts where
  s : ℕ
  i : ℕ
  r : ℕ
deriving DecidableEq

/-- Source `countStates(g)` (part_000 lines 101–111): every cell of the `M×N` window
goes to exactly one counter — `0 ↦ s`, `1 ↦ i`, anything else (including
`undefined`) falls to the final `else` and goes to `r`. -/
def countStates (p : Params) (g : Grid) : Counts :=
  { s := ((cells p).filter (fun q => cellAt g q.1 q.2 = some 0)).card
    i := ((cells p).filter (fun q => cellAt g q.1 q.2 = some 1)).card
    r := ((cells p).filter (fun q =>
          ¬ cellAt g q.1 q.2 = some 0 ∧ ¬ cellAt g q.1 q.2 = some 1)).card }

/-- The loop offsets `(a, b)`, `a, b ∈ [0, 2r]`, of the neighborhood square,
with the center excluded — the source's `i !== x || j !== y` test, where
`i = x - radius + a`, `j = y - radius + b`. -/
def nbhdOffsets (r : ℕ) : Finset (ℕ × ℕ) :=
  (Finset.range (2 * r + 1) ×ˢ Finset.range (2 * r + 1)).filter
    (fun q => ¬(q.1 = r ∧ q.2 = r))

/-- Source `getNeighbors(grid, x, y, radius)` (part_000 lines 67–81): census of the
square neighborhood with both axes wrapped by `(· + M) % M` / `(· + N) % N`,
returning `(infected, total)`. `total` counts every non-center iteration;
`infected` those whose wrapped cell holds `1`. -/
def getNeighbors (p : Params) (g : Grid) (x y rad : ℕ) : ℕ × ℕ :=
  (((nbhdOffsets rad).filter (fun q =>
      cellAtZ g (wrap ((x : ℤ) - rad + q.1) p.M) (wrap ((y : ℤ) - rad + q.2) p.N)
        = some 1)).card,
   (nbhdOffsets rad).card)

/-- The expression `infected > 0 ? beta * (infected / total) : 0` from `step`. -/
def infectionProb (p : Params) (infected total : ℕ) : ℚ :=
  if 0 < infected then p.beta * ((infected : ℚ) / (total : ℚ)) else 0

/-- The per-cell branch of `step` (part_000 lines 83–99), given the draw `u`
that `Math.random()` would return for this cell.  A Recovered cell stays `2`
without reading `u`; an Infected one recovers when `u < alpha`; otherwise the
neighborhood census decides the infection probability. -/
def nextCellValue (p : Params) (g : Grid) (i j : ℕ) (u : ℚ) : ℕ :=
  if cellAt g i j = some 2 then 2
  else if cellAt g i j = some 1 then (if u < p.alpha then 2 else 1)
  else
    let nb := getNeighbors p g i j p.r
    if u < infectionProb p nb.1 nb.2 then 1 else 0

/-- How many `Math.random()` calls the `step` branch for this cell makes:
the Recovered branch makes none, the other two make exactly one. -/
def cellDraws (g : Grid) (i j : ℕ) : ℕ :=
  if cellAt g i j = some 2 then 0 else 1

/-- Number of `Math.random()` calls the `step` loop makes for the cells
`(i, j), …, (i, j+n-1)`. -/
def rowDrawsFrom (g : Grid) (i : ℕ) : ℕ → ℕ → ℕ
  | _, 0 => 0
  | j, Nat.succ n => cellDraws g i j + rowDrawsFrom g i (j + 1) n

/-- Number of `Math.random()` calls the `step` loop makes for the rows
`i, …, i+m-1`, where `p` fixes the row width. -/
def gridDrawsFrom (p : Params) (g : Grid) : ℕ → ℕ → ℕ
  | _, 0 => 0
  | i, Nat.succ m => rowDrawsFrom g i 0 p.N + gridDrawsFrom p g (i + 1) m

/-- One row of `step`: columns `j, j+1, …` (`n` of them), threading the
position `k` in the random stream. -/
def stepRow (p : Params) (g : Grid) (u : ℕ → ℚ) (i : ℕ) :
    ℕ → ℕ → ℕ → List ℕ × ℕ
  | _, 0, k => ([], k)
  | j, Nat.succ n, k =>
    let v := nextCellValue p g i j (u k)
    let res := stepRow p g u i (j + 1) n (k + cellDraws g i j)
    (v :: res.1, res.2)

/-- Rows `i, i+1, …` (`m` of them) of `step`, threading the stream position. -/
def stepRows (p : Params) (g : Grid) (u : ℕ → ℚ) :
    ℕ → ℕ → ℕ → Grid × ℕ
  | _, 0, k => ([], k)
  | i, Nat.succ m, k =>
    let row := stepRow p g u i 0 p.N k
    let rest := stepRows p g u (i + 1) m row.2
    (row.1 :: rest.1, rest.2)

/-- Source `step(currentGrid)` (part_000 lines 83–99): build a brand-new `M×N` grid,
reading only the prior snapshot; also returns the next unread position of the
random stream. -/
def step (p : Params) (g : Grid) (u : ℕ → ℚ) (k : ℕ) : Grid × ℕ :=
  stepRows p g u 0 p.M k

/-- The all-susceptible grid `Array(M).fill(0).map(() => Array(N).fill(0))`. -/
def zeroGrid (p : Params) : Grid := List.replicate p.M (List.replicate p.N 0)

/-- JS `g[x][y] = v` on a grid whose row `x` exists. -/
def setCell (g : Grid) (x y v : ℕ) : Grid := g.set x ((g.getD x []).set y v)

/-- The placement loop of `makeInitialGrid` (part_000 lines 31–47), with the
`used` key set kept as a list of coordinate pairs and an explicit bound `fuel`
on the number of loop iterations (`none` = the loop has not finished within
`fuel` iterations).  Each attempt consumes two draws: `x = ⌊rng()·M⌋`,
`y = ⌊rng()·N⌋`. -/
def makeInitialGridAux (p : Params) (u : ℕ → ℚ) :
    ℕ → ℕ → List (ℕ × ℕ) → Grid → ℕ → Option Grid
  | 0, _, _, _, _ => none
  | Nat.succ fuel, k, used, g, placed =>
    if placed < p.I0 then
      let x := (⌊u k * (p.M : ℚ)⌋).toNat
      let y := (⌊u (k + 1) * (p.N : ℚ)⌋).toNat
      if (x, y) ∈ used then
        makeInitialGridAux p u fuel (k + 2) used g placed
      else
        makeInitialGridAux p u fuel (k + 2) ((x, y) :: used) (setCell g x y 1)
          (placed + 1)
    else some g

/-- Source `makeInitialGrid()` (part_000 lines 31–47): start from the zero grid with
an empty `used` set and place infected cells until `placed = I0`. The stream
`u` stands for the `seedrandom(initSeed)` generator. -/
def makeInitialGrid (p : Params) (u : ℕ → ℚ) (fuel : ℕ) : Option Grid :=
  makeInitialGridAux p u fuel 0 [] (zeroGrid p) 0

/-- One `{t, s, i, r}` entry of a trajectory. -/
structure StepRecord where
  t : ℕ
  s : ℕ
  i : ℕ
  r : ℕ
deriving DecidableEq

/-- The body of `runOnceNoAnimate` (part_000 lines 188–197): for `t = 0..T`
record the counts of the current grid, then step while `t < T`.  The first
argument is the number of records still to emit (`T + 1 - t`). -/
def runOnceAux (p : Params) (u : ℕ → ℚ) :
    ℕ → ℕ → Grid → ℕ → List StepRecord
  | 0, _, _, _ => []
  | Nat.succ n, t, g, k =>
    let c := countStates p g
    { t := t, s := c.s, i := c.i, r := c.r } ::
      runOnceAux p u n (t + 1) (step p g u k).1 (step p g u k).2

/-- Source `runOnceNoAnimate()`: one headless run from a clone of the fixed initial
grid, emitting `T + 1` records for `t = 0..T`. -/
def runOnce (p : Params) (g0 : Grid) (u : ℕ → ℚ) : List StepRecord :=
  runOnceAux p u (p.T + 1) 0 g0 0

/-- The interactive step loop (part_000 lines 130–145): while `time < T`,
compute `newGrid = step(grid)` and push `{t: time, …countStates(newGrid)}`;
the first argument is the number of iterations left (`T - time`). -/
def interactiveAux (p : Params) (u : ℕ → ℚ) :
    ℕ → ℕ → Grid → ℕ → List StepRecord
  | 0, _, _, _ => []
  | Nat.succ n, time, g, k =>
    let res := step p g u k
    let c := countStates p res.1
    { t := time, s := c.s, i := c.i, r := c.r } ::
      interactiveAux p u n (time + 1) res.1 res.2

/-- The full history accumulated by the interactive loop started at
`time = 0` from grid `g0`. -/
def interactiveRun (p : Params) (g0 : Grid) (u : ℕ → ℚ) : List StepRecord :=
  interactiveAux p u p.T 0 g0 0

/-- The `runs` array built by `exportNexpJSON` (part_000 lines 199–247):
run `k` is a headless run from the shared initial grid `g0` with its own
stream `us k`. -/
def exportRuns (p : Params) (g0 : Grid) (us : ℕ → ℕ → ℚ) (nexp : ℕ) :
    List (List StepRecord) :=
  (List.range nexp).map (fun k => runOnce p g0 (us k))

/-- The accumulation loop of `exportNexpJSON`: `acc[t] += hist[t].f` for
`t = 0..T`, starting from `Array(T+1).fill(0)` and folding over the runs. -/
def accumulate (p : Params) (f : StepRecord → ℕ) (hists : List (List StepRecord)) :
    List ℕ :=
  hists.foldl (fun acc h => List.zipWith (fun a x => a + f x) acc h)
    (List.replicate (p.T + 1) 0)

/-- One component of the `mean` object of the payload:
`acc.map(v => v / Nexp)`. -/
def exportMean (p : Params) (g0 : Grid) (us : ℕ → ℕ → ℚ) (nexp : ℕ)
    (f : StepRecord → ℕ) : List ℚ :=
  (accumulate p f (exportRuns p g0 us nexp)).map
    (fun v : ℕ => (v : ℚ) / (nexp : ℚ))

/-- Draws of `Math.random()` and `seedrandom` generators always lie in `[0, 1)`. -/
def validStream (u : ℕ → ℚ) : Prop := ∀ n, 0 ≤ u n ∧ u n < 1

/-- Well-formed grid for the given parameters: `M` rows of `N` cells, every
cell one of the three states.  Every grid the program builds satisfies this. -/
def WF (p : Params) (g : Grid) : Prop :=
  g.length = p.M ∧ (∀ row ∈ g, row.length = p.N) ∧
    (∀ row ∈ g, ∀ c ∈ row, c ≤ 2)

instance (p : Params) (g : Grid) : Decidable (WF p g) := by
  unfold WF; infer_instance

/-- Loop invariant of the `makeInitialGrid` placement loop: the grid is
`M×N`, the `used` key list mirrors exactly the Infected cells, every other
cell is Susceptible, and `placed` counts the keys. -/
structure InitInv (p : Params) (used : List (ℕ × ℕ)) (g : Grid)
    (placed : ℕ) : Prop where
  len : g.length = p.M
  rows : ∀ x, x < p.M → ∃ row, g.get? x = some row ∧ row.length = p.N
  placed_eq : placed = used.length
  nodup : used.Nodup
  bounds : ∀ q ∈ used, q.1 < p.M ∧ q.2 < p.N
  one_iff : ∀ x y, x < p.M → y < p.N →
    (cellAt g x y = some 1 ↔ (x, y) ∈ used)
  zero_or_one : ∀ x y, x < p.M → y < p.N →
    cellAt g x y = some 0 ∨ cellAt g x y = some 1
  placed_le : placed ≤ p.I0

/-! ### Concrete fixtures used by witnesses and counterexamples -/

/-- The spec's end-to-end scenario parameters `M=10, N=10, I0=3, T=0` with
the source's default rates `beta = 0.8`, `alpha = 0.1`. -/
def pScen : Params := ⟨10, 10, 3, 0, 1, 8/10, 1/10⟩

/-- A concrete deterministic draw stream standing for the seeded generator:
draw `k` is `k/10`. -/
def uScen : ℕ → ℚ := fun k => (k : ℚ) / 10

/-- The grid the initializer builds from `uScen` under `pScen`: the three
accepted coordinates are `(0,1)`, `(2,3)`, `(4,5)`. -/
def gScen : Grid :=
  [[0, 1, 0, 0, 0, 0, 0, 0, 0, 0],
   [0, 0, 0, 0, 0, 0, 0, 0, 0, 0],
   [0, 0, 0, 1, 0, 0, 0, 0, 0, 0],
   [0, 0, 0, 0, 0, 0, 0, 0, 0, 0],
   [0, 0, 0, 0, 0, 1, 0, 0, 0, 0],
   [0, 0, 0, 0, 0, 0, 0, 0, 0, 0],
   [0, 0, 0, 0, 0, 0, 0, 0, 0, 0],
   [0, 0, 0, 0, 0, 0, 0, 0, 0, 0],
   [0, 0, 0, 0, 0, 0, 0, 0, 0, 0],
   [0, 0, 0, 0, 0, 0, 0, 0, 0, 0]]

/-- Parameters of a 2×2 grid with `I0 = 2`, used to exercise the initializer. -/
def pInit2 : Params := ⟨2, 2, 2, 0, 1, 1, 1⟩

/-- A stream whose first two attempts hit the distinct cells `(0,0)` and
`(1,1)`. -/
def uInit2 : ℕ → ℚ := fun k => if k < 2 then 0 else 1/2

/-- Over-subscribed parameters: `I0 = 2` on a 1×1 grid (`I0 > M·N`). -/
def pOver : Params := ⟨1, 1, 2, 0, 1, 1, 1⟩

/-- The constant zero draw stream. -/
def uZero : ℕ → ℚ := fun _ => 0

/-! ### Counting: every cell lands in exactly one bucket -/

theorem countStates_sum (p : Params) (g : Grid) :
    (countStates p g).s + (countStates p g).i + (countStates p g).r = p.M * p.N := by
  have hcard : (cells p).card = p.M * p.N := by
    rw [cells, Finset.card_product, Finset.card_range, Finset.card_range]
  have hA := Finset.filter_card_add_filter_neg_card_eq_card
    (s := cells p) (p := fun q => cellAt g q.1 q.2 = some 0)
  have hB := Finset.filter_card_add_filter_neg_card_eq_card
    (s := (cells p).filter (fun q => ¬ cellAt g q.1 q.2 = some 0))
    (p := fun q => cellAt g q.1 q.2 = some 1)
  have hi : ((cells p).filter (fun q => cellAt g q.1 q.2 = some 1)).card
      = (((cells p).filter (fun q => ¬ cellAt g q.1 q.2 = some 0)).filter
          (fun q => cellAt g q.1 q.2 = some 1)).card := by
    rw [Finset.filter_filter]
    congr 1
    apply Finset.filter_congr
    intro q _
    constructor
    · intro h
      exact ⟨by simp [h], h⟩
    · intro h
      exact h.2
  have hr : ((cells p).filter (fun q =>
        ¬ cellAt g q.1 q.2 = some 0 ∧ ¬ cellAt g q.1 q.2 = some 1)).card
      = (((cells p).filter (fun q => ¬ cellAt g q.1 q.2 = some 0)).filter
          (fun q => ¬ cellAt g q.1 q.2 = some 1)).card := by
    rw [Finset.filter_filter]
  unfold countStates
  dsimp only
  rw [hi, hr]
  omega

/-! ### The neighborhood census -/

theorem nbhdOffsets_card (r : ℕ) : (nbhdOffsets r).card = (2 * r + 1) ^ 2 - 1 := by
  have hfilter : ((Finset.range (2 * r + 1) ×ˢ Finset.range (2 * r + 1)).filter
      (fun q => q.1 = r ∧ q.2 = r)) = {(r, r)} := by
    ext q
    simp only [Finset.mem_filter, Finset.mem_product, Finset.mem_range,
      Finset.mem_singleton]
    constructor
    · rintro ⟨⟨_, _⟩, h1, h2⟩
      cases q
      simp_all
    · rintro rfl
      refine ⟨⟨?_, ?_⟩, rfl, rfl⟩ <;> omega
  have hA := Finset.filter_card_add_filter_neg_card_eq_card
    (s := Finset.range (2 * r + 1) ×ˢ Finset.range (2 * r + 1))
    (p := fun q => q.1 = r ∧ q.2 = r)
  rw [hfilter, Finset.card_singleton] at hA
  have hcard : (Finset.range (2 * r + 1) ×ˢ Finset.range (2 * r + 1)).card
      = (2 * r + 1) ^ 2 := by
    rw [Finset.card_product, Finset.card_range, sq]
  rw [hcard] at hA
  rw [nbhdOffsets]
  omega

theorem getNeighbors_total (p : Params) (g : Grid) (x y rad : ℕ) :
    (getNeighbors p g x y rad).2 = (2 * rad + 1) ^ 2 - 1 := by
  rw [getNeighbors]
  exact nbhdOffsets_card rad

theorem getNeighbors_infected_le (p : Params) (g : Grid) (x y rad : ℕ) :
    (getNeighbors p g x y rad).1 ≤ (getNeighbors p g x y rad).2 :=
  Finset.card_filter_le _ _

theorem getNeighbors_total_pos (p : Params) (g : Grid) (x y rad : ℕ)
    (hr : 1 ≤ rad) : 0 < (getNeighbors p g x y rad).2 := by
  rw [getNeighbors_total]
  have h3 : 3 ≤ 2 * rad + 1 := by omega
  have h9 : 3 * 3 ≤ (2 * rad + 1) * (2 * rad + 1) := Nat.mul_le_mul h3 h3
  rw [sq]
  omega

/-! ### Structure of the grid built by `step` -/

theorem stepRow_fst_length (p : Params) (g : Grid) (u : ℕ → ℚ) (i : ℕ) :
    ∀ n j k : ℕ, ((stepRow p g u i j n k).1).length = n := by
  intro n
  induction n with
  | zero => intro j k; rfl
  | succ n ih => intro j k; simp [stepRow, ih]

theorem stepRows_fst_length (p : Params) (g : Grid) (u : ℕ → ℚ) :
    ∀ m i k : ℕ, ((stepRows p g u i m k).1).length = m := by
  intro m
  induction m with
  | zero => intro i k; rfl
  | succ m ih => intro i k; simp [stepRows, ih]

theorem stepRows_row_length (p : Params) (g : Grid) (u : ℕ → ℚ) :
    ∀ m i k : ℕ, ∀ row ∈ (stepRows p g u i m k).1, row.length = p.N := by
  intro m
  induction m with
  | zero => intro i k row h; simp [stepRows] at h
  | succ m ih =>
    intro i k row h
    simp only [stepRows, List.mem_cons] at h
    rcases h with h | h
    · subst h; exact stepRow_fst_length p g u i p.N 0 k
    · exact ih _ _ row h

theorem stepRow_get (p : Params) (g : Grid) (u : ℕ → ℚ) (i : ℕ) :
    ∀ n j k t : ℕ, t < n →
      ∃ d, ((stepRow p g u i j n k).1).get? t
        = some (nextCellValue p g i (j + t) d) := by
  intro n
  induction n with
  | zero => intro j k t h; omega
  | succ n ih =>
    intro j k t h
    cases t with
    | zero =>
      refine ⟨u k, ?_⟩
      simp [stepRow]
    | succ t =>
      obtain ⟨d, hd⟩ := ih (j + 1) (k + cellDraws g i j) t (by omega)
      refine ⟨d, ?_⟩
      simp only [stepRow]
      rw [List.get?_cons_succ]
      rw [show j + 1 + t = j + (t + 1) from by omega] at hd
      exact hd

theorem stepRows_get (p : Params) (g : Grid) (u : ℕ → ℚ) :
    ∀ m i k x : ℕ, x < m →
      ∃ k', ((stepRows p g u i m k).1).get? x
        = some ((stepRow p g u (i + x) 0 p.N k').1) := by
  intro m
  induction m with
  | zero => intro i k x h; omega
  | succ m ih =>
    intro i k x h
    cases x with
    | zero =>
      refine ⟨k, ?_⟩
      simp [stepRows]
    | succ x =>
      obtain ⟨k', hk⟩ := ih (i + 1) ((stepRow p g u i 0 p.N k).2) x (by omega)
      refine ⟨k', ?_⟩
      simp only [stepRows]
      rw [List.get?_cons_succ]
      rw [show i + 1 + x = i + (x + 1) from by omega] at hk
      exact hk

theorem cellAt_step (p : Params) (g : Grid) (u : ℕ → ℚ) (k : ℕ) (x y : ℕ)
    (hx : x < p.M) (hy : y < p.N) :
    ∃ d, cellAt (step p g u k).1 x y = some (nextCellValue p g x y d) := by
  obtain ⟨k', hk⟩ := stepRows_get p g u p.M 0 k x hx
  rw [Nat.zero_add] at hk
  obtain ⟨d, hd⟩ := stepRow_get p g u x p.N 0 k' y hy
  rw [Nat.zero_add] at hd
  refine ⟨d, ?_⟩
  simp only [step, cellAt, hk, hd]

/-! ### Case analysis of the per-cell transition -/

theorem nextCellValue_of_rec (p : Params) (g : Grid) (i j : ℕ) (d : ℚ)
    (h : cellAt g i j = some 2) : nextCellValue p g i j d = 2 := by
  simp [nextCellValue, h]

theorem nextCellValue_eq_zero (p : Params) (g : Grid) (i j : ℕ) (d : ℚ)
    (h : nextCellValue p g i j d = 0) :
    ¬ cellAt g i j = some 2 ∧ ¬ cellAt g i j = some 1 := by
  by_cases h2 : cellAt g i j = some 2
  · rw [nextCellValue_of_rec p g i j d h2] at h
    exact absurd h (by decide)
  by_cases h1 : cellAt g i j = some 1
  · rw [nextCellValue, if_neg h2, if_pos h1] at h
    split_ifs at h
  · exact ⟨h2, h1⟩

/-! ### Well-formed grids -/

theorem WF.cellAt_cases (p : Params) (g : Grid) (h : WF p g) (x y : ℕ)
    (hx : x < p.M) (hy : y < p.N) :
    cellAt g x y = some 0 ∨ cellAt g x y = some 1 ∨ cellAt g x y = some 2 := by
  obtain ⟨hlen, hrowlen, hcellv⟩ := h
  have hx' : x < g.length := by omega
  obtain ⟨row, hget⟩ : ∃ row, g.get? x = some row := ⟨_, List.get?_eq_get hx'⟩
  have hmem : row ∈ g := List.get?_mem hget
  have hy' : y < row.length := by
    rw [hrowlen row hmem]; omega
  obtain ⟨c, hcget⟩ : ∃ c, row.get? y = some c := ⟨_, List.get?_eq_get hy'⟩
  have hcmem : c ∈ row := List.get?_mem hcget
  have hle : c ≤ 2 := hcellv row hmem c hcmem
  have hca : cellAt g x y = some c := by
    simp only [cellAt, hget, hcget]
  have : c = 0 ∨ c = 1 ∨ c = 2 := by omega
  rcases this with rfl | rfl | rfl
  · exact Or.inl hca
  · exact Or.inr (Or.inl hca)
  · exact Or.inr (Or.inr hca)

theorem mem_cells (p : Params) (q : ℕ × ℕ) (h : q ∈ cells p) :
    q.1 < p.M ∧ q.2 < p.N := by
  rw [cells, Finset.mem_product, Finset.mem_range, Finset.mem_range] at h
  exact h

/-! ### Monotonicity of one step -/

theorem step_r_mono (p : Params) (g : Grid) (u : ℕ → ℚ) (k : ℕ) (hwf : WF p g) :
    (countStates p g).r ≤ (countStates p (step p g u k).1).r := by
  unfold countStates
  dsimp only
  apply Finset.card_le_card
  intro q hq
  rw [Finset.mem_filter] at hq ⊢
  obtain ⟨hqc, hq0, hq1⟩ := hq
  obtain ⟨hx, hy⟩ := mem_cells p q hqc
  have h2 : cellAt g q.1 q.2 = some 2 := by
    rcases WF.cellAt_cases p g hwf q.1 q.2 hx hy with h | h | h
    · exact absurd h hq0
    · exact absurd h hq1
    · exact h
  obtain ⟨d, hd⟩ := cellAt_step p g u k q.1 q.2 hx hy
  rw [nextCellValue_of_rec p g q.1 q.2 d h2] at hd
  exact ⟨hqc, by simp [hd], by simp [hd]⟩

theorem step_s_anti (p : Params) (g : Grid) (u : ℕ → ℚ) (k : ℕ) (hwf : WF p g) :
    (countStates p (step p g u k).1).s ≤ (countStates p g).s := by
  unfold countStates
  dsimp only
  apply Finset.card_le_card
  intro q hq
  rw [Finset.mem_filter] at hq ⊢
  obtain ⟨hqc, hq0⟩ := hq
  obtain ⟨hx, hy⟩ := mem_cells p q hqc
  obtain ⟨d, hd⟩ := cellAt_step p g u k q.1 q.2 hx hy
  rw [hq0] at hd
  have hzero : nextCellValue p g q.1 q.2 d = 0 := by
    injection hd.symm
  obtain ⟨hne2, hne1⟩ := nextCellValue_eq_zero p g q.1 q.2 d hzero
  rcases WF.cellAt_cases p g hwf q.1 q.2 hx hy with h | h | h
  · exact ⟨hqc, h⟩
  · exact absurd h hne1
  · exact absurd h hne2

theorem nextCellValue_le_two (p : Params) (g : Grid) (i j : ℕ) (d : ℚ) :
    nextCellValue p g i j d ≤ 2 := by
  simp only [nextCellValue]
  split_ifs <;> omega

theorem stepRow_mem_le (p : Params) (g : Grid) (u : ℕ → ℚ) (i : ℕ) :
    ∀ n j k v, v ∈ (stepRow p g u i j n k).1 → v ≤ 2 := by
  intro n
  induction n with
  | zero => intro j k v hv; simp [stepRow] at hv
  | succ n ih =>
    intro j k v hv
    simp only [stepRow, List.mem_cons] at hv
    rcases hv with rfl | hv
    · exact nextCellValue_le_two p g i j (u k)
    · exact ih (j + 1) (k + cellDraws g i j) v hv

theorem stepRows_mem_row (p : Params) (g : Grid) (u : ℕ → ℚ) :
    ∀ m i k row, row ∈ (stepRows p g u i m k).1 →
      ∃ i' k', row = (stepRow p g u i' 0 p.N k').1 := by
  intro m
  induction m with
  | zero => intro i k row h; simp [stepRows] at h
  | succ m ih =>
    intro i k row h
    simp only [stepRows, List.mem_cons] at h
    rcases h with rfl | h
    · exact ⟨i, k, rfl⟩
    · exact ih _ _ row h

theorem WF_step (p : Params) (g : Grid) (u : ℕ → ℚ) (k : ℕ) :
    WF p (step p g u k).1 := by
  refine ⟨?_, ?_, ?_⟩
  · rw [step]
    exact stepRows_fst_length p g u p.M 0 k
  · rw [step]
    exact stepRows_row_length p g u p.M 0 k
  · rw [step]
    intro row hrow c hc
    obtain ⟨i', k', rfl⟩ := stepRows_mem_row p g u p.M 0 k row hrow
    exact stepRow_mem_le p g u i' p.N 0 k' c hc

/-- Claim C1: Conservation invariant: `countStates` assigns every cell of the `M×N`
window to exactly one of the three counts, so `s + i + r = M·N` holds for
every snapshot of every run, and `step` maps any grid to an `M×N` grid. -/
theorem claim_C1 :
    (∀ (p : Params) (g : Grid),
        (countStates p g).s + (countStates p g).i + (countStates p g).r
          = p.M * p.N) ∧
      ∀ (p : Params) (g : Grid) (u : ℕ → ℚ) (k : ℕ),
        ((step p g u k).1).length = p.M ∧
          ∀ row ∈ (step p g u k).1, row.length = p.N := by
  refine ⟨countStates_sum, fun p g u k => ?_⟩
  rw [step]
  exact ⟨stepRows_fst_length p g u p.M 0 k, stepRows_row_length p g u p.M 0 k⟩

/-- Claim C6: Monotonicity: for every well-formed grid and every outcome of the
random draws, one `step` never decreases `count(Recovered)` nor
`count(Infected) + count(Recovered)` — no cell leaves Recovered and no
Infected cell returns to Susceptible; and `step` preserves well-formedness,
so both inequalities hold at every `t` along every run. -/
theorem claim_C6 (p : Params) (g : Grid) (u : ℕ → ℚ) (k : ℕ) (hwf : WF p g) :
    (countStates p g).r ≤ (countStates p (step p g u k).1).r ∧
      (countStates p g).i + (countStates p g).r
        ≤ (countStates p (step p g u k).1).i
          + (countStates p (step p g u k).1).r ∧
      WF p (step p g u k).1 := by
  have h1 := step_r_mono p g u k hwf
  have h2 := step_s_anti p g u k hwf
  have e1 := countStates_sum p g
  have e2 := countStates_sum p (step p g u k).1
  exact ⟨h1, by omega, WF_step p g u k⟩

/-- Witness for C6 at a concrete input: a 1×1 grid holding one Recovered
cell, with the zero draw stream. -/
theorem claim_C6_witness :
    (countStates ⟨1, 1, 0, 0, 1, 1, 1⟩ [[2]]).r
        ≤ (countStates ⟨1, 1, 0, 0, 1, 1, 1⟩
            (step ⟨1, 1, 0, 0, 1, 1, 1⟩ [[2]] (fun _ => 0) 0).1).r ∧
      (countStates ⟨1, 1, 0, 0, 1, 1, 1⟩ [[2]]).i
          + (countStates ⟨1, 1, 0, 0, 1, 1, 1⟩ [[2]]).r
        ≤ (countStates ⟨1, 1, 0, 0, 1, 1, 1⟩
            (step ⟨1, 1, 0, 0, 1, 1, 1⟩ [[2]] (fun _ => 0) 0).1).i
          + (countStates ⟨1, 1, 0, 0, 1, 1, 1⟩
              (step ⟨1, 1, 0, 0, 1, 1, 1⟩ [[2]] (fun _ => 0) 0).1).r ∧
      WF ⟨1, 1, 0, 0, 1, 1, 1⟩
        (step ⟨1, 1, 0, 0, 1, 1, 1⟩ [[2]] (fun _ => 0) 0).1 :=
  claim_C6 ⟨1, 1, 0, 0, 1, 1, 1⟩ [[2]] (fun _ => 0) 0 (by decide)

/-- Claim C7: Neighborhood `totalCount` invariant: for every grid, radius and
center cell — wherever it sits, since both axes wrap — `getNeighbors`
returns `totalCount = (2r+1)² − 1`. -/
theorem claim_C7 (p : Params) (g : Grid) (x y rad : ℕ) :
    (getNeighbors p g x y rad).2 = (2 * rad + 1) ^ 2 - 1 :=
  getNeighbors_total p g x y rad

/-- Claim C10: Infection-probability well-formedness: the census satisfies
`0 ≤ infected ≤ total` with `total > 0` whenever `r ≥ 1`, so the probability
`infected > 0 ? beta·(infected/total) : 0` computed by `step` always lies in
`[0, beta] ⊆ [0, 1]` and the division never has a zero divisor. -/
theorem claim_C10 (p : Params) (g : Grid) (x y rad : ℕ) (hr : 1 ≤ rad)
    (hb0 : 0 ≤ p.beta) (hb1 : p.beta ≤ 1) :
    (getNeighbors p g x y rad).1 ≤ (getNeighbors p g x y rad).2 ∧
      0 < (getNeighbors p g x y rad).2 ∧
      0 ≤ infectionProb p (getNeighbors p g x y rad).1
            (getNeighbors p g x y rad).2 ∧
      infectionProb p (getNeighbors p g x y rad).1
            (getNeighbors p g x y rad).2 ≤ p.beta ∧
      infectionProb p (getNeighbors p g x y rad).1
            (getNeighbors p g x y rad).2 ≤ 1 := by
  have hle := getNeighbors_infected_le p g x y rad
  have hpos := getNeighbors_total_pos p g x y rad hr
  refine ⟨hle, hpos, ?_⟩
  rw [infectionProb]
  split_ifs with hinf
  · have hq0 : (0 : ℚ) ≤ ((getNeighbors p g x y rad).1 : ℚ)
        / ((getNeighbors p g x y rad).2 : ℚ) :=
      div_nonneg (Nat.cast_nonneg _) (Nat.cast_nonneg _)
    have hq1 : ((getNeighbors p g x y rad).1 : ℚ)
        / ((getNeighbors p g x y rad).2 : ℚ) ≤ 1 :=
      div_le_one_of_le₀ (Nat.cast_le.2 hle) (Nat.cast_nonneg _)
    have h0 : (0 : ℚ) ≤ p.beta * (((getNeighbors p g x y rad).1 : ℚ)
        / ((getNeighbors p g x y rad).2 : ℚ)) := mul_nonneg hb0 hq0
    have hb : p.beta * (((getNeighbors p g x y rad).1 : ℚ)
        / ((getNeighbors p g x y rad).2 : ℚ)) ≤ p.beta := by
      calc p.beta * (((getNeighbors p g x y rad).1 : ℚ)
              / ((getNeighbors p g x y rad).2 : ℚ))
          ≤ p.beta * 1 := mul_le_mul_of_nonneg_left hq1 hb0
        _ = p.beta := mul_one _
    exact ⟨h0, hb, le_trans hb hb1⟩
  · exact ⟨le_refl 0, hb0, by norm_num⟩

/-- Witness for C10 at a concrete input: the empty 1×1 grid, radius 1,
`beta = 1`. -/
theorem claim_C10_witness :
    (getNeighbors ⟨1, 1, 0, 0, 1, 1, 1⟩ [[0]] 0 0 1).1
        ≤ (getNeighbors ⟨1, 1, 0, 0, 1, 1, 1⟩ [[0]] 0 0 1).2 ∧
      0 < (getNeighbors ⟨1, 1, 0, 0, 1, 1, 1⟩ [[0]] 0 0 1).2 ∧
      0 ≤ infectionProb ⟨1, 1, 0, 0, 1, 1, 1⟩
            (getNeighbors ⟨1, 1, 0, 0, 1, 1, 1⟩ [[0]] 0 0 1).1
            (getNeighbors ⟨1, 1, 0, 0, 1, 1, 1⟩ [[0]] 0 0 1).2 ∧
      infectionProb ⟨1, 1, 0, 0, 1, 1, 1⟩
            (getNeighbors ⟨1, 1, 0, 0, 1, 1, 1⟩ [[0]] 0 0 1).1
            (getNeighbors ⟨1, 1, 0, 0, 1, 1, 1⟩ [[0]] 0 0 1).2
        ≤ Params.beta ⟨1, 1, 0, 0, 1, 1, 1⟩ ∧
      infectionProb ⟨1, 1, 0, 0, 1, 1, 1⟩
            (getNeighbors ⟨1, 1, 0, 0, 1, 1, 1⟩ [[0]] 0 0 1).1
            (getNeighbors ⟨1, 1, 0, 0, 1, 1, 1⟩ [[0]] 0 0 1).2 ≤ 1 :=
  claim_C10 ⟨1, 1, 0, 0, 1, 1, 1⟩ [[0]] 0 0 1 (by decide) (by norm_num)
    (by norm_num)

/-! ### Draw counting -/

theorem stepRow_snd (p : Params) (g : Grid) (u : ℕ → ℚ) (i : ℕ) :
    ∀ n j k : ℕ, (stepRow p g u i j n k).2 = k + rowDrawsFrom g i j n := by
  intro n
  induction n with
  | zero => intro j k; simp [stepRow, rowDrawsFrom]
  | succ n ih =>
    intro j k
    simp only [stepRow, rowDrawsFrom]
    rw [ih (j + 1) (k + cellDraws g i j)]
    omega

theorem stepRows_snd (p : Params) (g : Grid) (u : ℕ → ℚ) :
    ∀ m i k : ℕ, (stepRows p g u i m k).2 = k + gridDrawsFrom p g i m := by
  intro m
  induction m with
  | zero => intro i k; simp [stepRows, gridDrawsFrom]
  | succ m ih =>
    intro i k
    simp only [stepRows, gridDrawsFrom]
    rw [ih (i + 1), stepRow_snd]
    omega

theorem rowDrawsFrom_eq_sum (g : Grid) (i : ℕ) :
    ∀ n j : ℕ, rowDrawsFrom g i j n = ∑ t ∈ Finset.range n, cellDraws g i (j + t) := by
  intro n
  induction n with
  | zero => intro j; simp [rowDrawsFrom]
  | succ n ih =>
    intro j
    rw [Finset.sum_range_succ']
    simp only [rowDrawsFrom]
    rw [ih (j + 1)]
    have : ∀ t ∈ Finset.range n, cellDraws g i (j + 1 + t) = cellDraws g i (j + (t + 1)) := by
      intro t _
      rw [show j + 1 + t = j + (t + 1) from by omega]
    rw [Finset.sum_congr rfl this]
    simp only [Nat.add_zero]
    omega

theorem gridDrawsFrom_eq_sum (p : Params) (g : Grid) :
    ∀ m i : ℕ, gridDrawsFrom p g i m
      = ∑ a ∈ Finset.range m, ∑ t ∈ Finset.range p.N, cellDraws g (i + a) t := by
  intro m
  induction m with
  | zero => intro i; simp [gridDrawsFrom]
  | succ m ih =>
    intro i
    rw [Finset.sum_range_succ']
    simp only [gridDrawsFrom]
    rw [ih (i + 1), rowDrawsFrom_eq_sum]
    have h1 : ∀ a ∈ Finset.range m,
        (∑ t ∈ Finset.range p.N, cellDraws g (i + 1 + a) t)
          = ∑ t ∈ Finset.range p.N, cellDraws g (i + (a + 1)) t := by
      intro a _
      rw [show i + 1 + a = i + (a + 1) from by omega]
    rw [Finset.sum_congr rfl h1]
    have h2 : (∑ t ∈ Finset.range p.N, cellDraws g i (0 + t))
        = ∑ t ∈ Finset.range p.N, cellDraws g (i + 0) t := by
      apply Finset.sum_congr rfl
      intro t _
      rw [Nat.zero_add, Nat.add_zero]
    omega

theorem sum_cellDraws (p : Params) (g : Grid) (hwf : WF p g) :
    (∑ q ∈ cells p, cellDraws g q.1 q.2) = p.M * p.N - (countStates p g).r := by
  have hsplit : (∑ q ∈ cells p, cellDraws g q.1 q.2)
      = ((cells p).filter (fun q => ¬ cellAt g q.1 q.2 = some 2)).card := by
    rw [show (fun q : ℕ × ℕ => cellDraws g q.1 q.2)
        = fun q : ℕ × ℕ => if cellAt g q.1 q.2 = some 2 then 0 else 1 from rfl]
    rw [Finset.sum_ite, Finset.sum_const, Finset.sum_const]
    simp
  have hA := Finset.filter_card_add_filter_neg_card_eq_card
    (s := cells p) (p := fun q => cellAt g q.1 q.2 = some 2)
  have hcard : (cells p).card = p.M * p.N := by
    rw [cells, Finset.card_product, Finset.card_range, Finset.card_range]
  have hr : ((cells p).filter (fun q =>
        ¬ cellAt g q.1 q.2 = some 0 ∧ ¬ cellAt g q.1 q.2 = some 1)).card
      = ((cells p).filter (fun q => cellAt g q.1 q.2 = some 2)).card := by
    congr 1
    apply Finset.filter_congr
    intro q hq
    obtain ⟨hx, hy⟩ := mem_cells p q hq
    rcases WF.cellAt_cases p g hwf q.1 q.2 hx hy with h | h | h
    · simp [h]
    · simp [h]
    · simp [h]
  unfold countStates
  dsimp only
  rw [hsplit, hr]
  omega

theorem step_draws (p : Params) (g : Grid) (u : ℕ → ℚ) (k : ℕ) (hwf : WF p g) :
    (step p g u k).2 = k + (p.M * p.N - (countStates p g).r) := by
  rw [step, stepRows_snd, gridDrawsFrom_eq_sum]
  have h0 : ∀ a ∈ Finset.range p.M,
      (∑ t ∈ Finset.range p.N, cellDraws g (0 + a) t)
        = ∑ t ∈ Finset.range p.N, cellDraws g a t := by
    intro a _
    rw [Nat.zero_add]
  rw [Finset.sum_congr rfl h0]
  have hprod : (∑ q ∈ cells p, cellDraws g q.1 q.2)
      = ∑ a ∈ Finset.range p.M, ∑ t ∈ Finset.range p.N, cellDraws g a t := by
    rw [cells]
    exact Finset.sum_product (Finset.range p.M) (Finset.range p.N)
      (fun q => cellDraws g q.1 q.2)
  rw [← hprod, sum_cellDraws p g hwf]

/-- Claim C9 fails as stated: on a 1×1 grid holding one Recovered cell, a step
consumes 0 draws, not `M·N = 1` — the Recovered branch makes no
`Math.random()` call. -/
theorem claim_C9_counterexample :
    (step ⟨1, 1, 0, 0, 1, 1, 1⟩ [[2]] (fun _ => 0) 0).2 = 0 ∧
      (0 : ℕ) ≠ Params.M ⟨1, 1, 0, 0, 1, 1, 1⟩ * Params.N ⟨1, 1, 0, 0, 1, 1, 1⟩ := by
  constructor
  · decide
  · decide

/-- Claim C9 (amended): in one application of `step`, each Susceptible or Infected
cell consumes exactly one uniform draw and each Recovered cell consumes
none, so a step over a well-formed `M×N` grid consumes exactly
`M·N − count(Recovered)` draws. -/
theorem claim_C9 (p : Params) (g : Grid) (u : ℕ → ℚ) (k : ℕ) (hwf : WF p g) :
    (step p g u k).2 = k + (p.M * p.N - (countStates p g).r) :=
  step_draws p g u k hwf

/-- Witness for C9 at a concrete input. -/
theorem claim_C9_witness :
    (step ⟨2, 1, 0, 0, 1, 1, 1⟩ [[2], [0]] (fun _ => 0) 0).2
      = 0 + (Params.M ⟨2, 1, 0, 0, 1, 1, 1⟩ * Params.N ⟨2, 1, 0, 0, 1, 1, 1⟩
          - (countStates ⟨2, 1, 0, 0, 1, 1, 1⟩ [[2], [0]]).r) :=
  claim_C9 ⟨2, 1, 0, 0, 1, 1, 1⟩ [[2], [0]] (fun _ => 0) 0 (by decide)

/-! ### Trajectories -/

theorem runOnceAux_length (p : Params) (u : ℕ → ℚ) :
    ∀ n t g k, (runOnceAux p u n t g k).length = n := by
  intro n
  induction n with
  | zero => intro t g k; rfl
  | succ n ih => intro t g k; simp [runOnceAux, ih]

theorem runOnce_length (p : Params) (g0 : Grid) (u : ℕ → ℚ) :
    (runOnce p g0 u).length = p.T + 1 :=
  runOnceAux_length p u (p.T + 1) 0 g0 0

theorem runOnce_head (p : Params) (g0 : Grid) (u : ℕ → ℚ) :
    (runOnce p g0 u).head? = some ⟨0, (countStates p g0).s,
      (countStates p g0).i, (countStates p g0).r⟩ := by
  simp [runOnce, runOnceAux]

theorem runOnceAux_map_t (p : Params) (u : ℕ → ℚ) :
    ∀ n t g k, (runOnceAux p u n t g k).map StepRecord.t = List.range' t n := by
  intro n
  induction n with
  | zero => intro t g k; rfl
  | succ n ih =>
    intro t g k
    rw [List.range'_succ]
    simp [runOnceAux, ih]

theorem runOnce_map_t (p : Params) (g0 : Grid) (u : ℕ → ℚ) :
    (runOnce p g0 u).map StepRecord.t = List.range (p.T + 1) := by
  rw [List.range_eq_range']
  exact runOnceAux_map_t p u (p.T + 1) 0 g0 0

theorem interactiveAux_length (p : Params) (u : ℕ → ℚ) :
    ∀ n time g k, (interactiveAux p u n time g k).length = n := by
  intro n
  induction n with
  | zero => intro time g k; rfl
  | succ n ih => intro time g k; simp [interactiveAux, ih]

theorem interactiveRun_length (p : Params) (g0 : Grid) (u : ℕ → ℚ) :
    (interactiveRun p g0 u).length = p.T :=
  interactiveAux_length p u p.T 0 g0 0

/-! ### The end-to-end scenario -/

theorem makeInitialGrid_scen : makeInitialGrid pScen uScen 10 = some gScen := by
  rw [makeInitialGrid, makeInitialGridAux]
  norm_num [uScen, pScen]
  rw [makeInitialGridAux]
  norm_num [uScen, pScen]
  rw [makeInitialGridAux]
  norm_num [uScen, pScen]
  rw [makeInitialGridAux]
  norm_num [uScen, pScen]
  decide

theorem runOnce_scen : runOnce pScen gScen uScen = [⟨0, 97, 3, 0⟩] := by
  decide

/-- Claim C5 fails as stated for the interactive step loop it also covers: with
`T = 0` the loop exits at once and the history is empty — not the single
record `{t:0, s:97, i:3, r:0}` the claim requires of every run. (For any
`T` the loop emits `T` records of post-step grids and never the initial
record.) -/
theorem claim_C5_counterexample :
    (interactiveRun pScen gScen uScen).length ≠ pScen.T + 1 := by
  decide

/-- Claim C5 (amended): every headless run (`runOnceNoAnimate`) emits at `t = 0`
the record of the unmodified initial grid and produces exactly `T+1` records
for `t = 0..T`; in the scenario `M=10, N=10, I0=3, T=0` the record list is
exactly `[{t:0, s:97, i:3, r:0}]`.  The interactive loop, by contrast,
produces only `T` records (of the already-stepped grids). -/
theorem claim_C5 :
    (∀ (p : Params) (g0 : Grid) (u : ℕ → ℚ),
        (runOnce p g0 u).length = p.T + 1 ∧
          (runOnce p g0 u).head? = some ⟨0, (countStates p g0).s,
            (countStates p g0).i, (countStates p g0).r⟩ ∧
          (runOnce p g0 u).map StepRecord.t = List.range (p.T + 1)) ∧
      (makeInitialGrid pScen uScen 10).map (fun g => runOnce pScen g uScen)
        = some [⟨0, 97, 3, 0⟩] ∧
      ∀ (p : Params) (g0 : Grid) (u : ℕ → ℚ),
        (interactiveRun p g0 u).length = p.T := by
  refine ⟨fun p g0 u => ⟨runOnce_length p g0 u, runOnce_head p g0 u,
    runOnce_map_t p g0 u⟩, ?_, fun p g0 u => interactiveRun_length p g0 u⟩
  rw [makeInitialGrid_scen, Option.map_some', runOnce_scen]

/-! ### Runs of the export batch -/

theorem exportRuns_getD (p : Params) (g0 : Grid) (us : ℕ → ℕ → ℚ)
    (nexp k : ℕ) (h : k < nexp) :
    (exportRuns p g0 us nexp).getD k [] = runOnce p g0 (us k) := by
  rw [exportRuns, List.getD_eq_getElem?_getD, List.getElem?_map,
    List.getElem?_range h]
  rfl

/-- Claim C3: Initializer determinism: `makeInitialGrid` is a pure function of the
seed-derived stream and the parameters, so identical arguments give the
identical grid regardless of call count or timing; and every run of one
export batch starts from the same shared initial grid — each run's `t = 0`
record is the count record of that one grid. -/
theorem claim_C3 (p : Params) (u : ℕ → ℚ) (fuel : ℕ) (g0 : Grid)
    (us : ℕ → ℕ → ℚ) (nexp k₁ k₂ : ℕ) (h1 : k₁ < nexp) (h2 : k₂ < nexp) :
    makeInitialGrid p u fuel = makeInitialGrid p u fuel ∧
      ((exportRuns p g0 us nexp).getD k₁ []).head?
        = some ⟨0, (countStates p g0).s, (countStates p g0).i,
            (countStates p g0).r⟩ ∧
      ((exportRuns p g0 us nexp).getD k₂ []).head?
        = some ⟨0, (countStates p g0).s, (countStates p g0).i,
            (countStates p g0).r⟩ := by
  refine ⟨rfl, ?_, ?_⟩
  · rw [exportRuns_getD p g0 us nexp k₁ h1]
    exact runOnce_head p g0 (us k₁)
  · rw [exportRuns_getD p g0 us nexp k₂ h2]
    exact runOnce_head p g0 (us k₂)

/-- Witness for C3 at a concrete input: a batch of two runs from `gScen`. -/
theorem claim_C3_witness :
    makeInitialGrid pScen uScen 10 = makeInitialGrid pScen uScen 10 ∧
      ((exportRuns pScen gScen (fun _ => uScen) 2).getD 0 []).head?
        = some ⟨0, (countStates pScen gScen).s, (countStates pScen gScen).i,
            (countStates pScen gScen).r⟩ ∧
      ((exportRuns pScen gScen (fun _ => uScen) 2).getD 1 []).head?
        = some ⟨0, (countStates pScen gScen).s, (countStates pScen gScen).i,
            (countStates pScen gScen).r⟩ :=
  claim_C3 pScen uScen 10 gScen (fun _ => uScen) 2 0 1 (by decide) (by decide)

/-! ### Aggregation -/

theorem zipWith_add_right_comm (f : StepRecord → ℕ) :
    ∀ (z : List ℕ) (a b : List StepRecord),
      List.zipWith (fun acc x => acc + f x)
          (List.zipWith (fun acc x => acc + f x) z a) b
        = List.zipWith (fun acc x => acc + f x)
            (List.zipWith (fun acc x => acc + f x) z b) a := by
  intro z
  induction z with
  | nil => intro a b; simp
  | cons zh zt ih =>
    intro a b
    cases a with
    | nil => simp
    | cons ah atl =>
      cases b with
      | nil => simp
      | cons bh btl =>
        simp only [List.zipWith_cons_cons, List.cons.injEq]
        exact ⟨by omega, ih atl btl⟩

theorem accumulate_go (p : Params) (f : StepRecord → ℕ) :
    ∀ (hists : List (List StepRecord)) (acc : List ℕ),
      (∀ h ∈ hists, h.length = p.T + 1) → acc.length = p.T + 1 →
      ∀ t : ℕ, t ≤ p.T →
        (hists.foldl (fun acc h => List.zipWith (fun acc x => acc + f x) acc h)
            acc)[t]?
          = some (acc.getD t 0
              + (hists.map (fun h => f (h.getD t ⟨0, 0, 0, 0⟩))).sum) := by
  intro hists
  induction hists with
  | nil =>
    intro acc _ hlen t ht
    simp only [List.foldl_nil, List.map_nil, List.sum_nil, Nat.add_zero]
    have ht' : t < acc.length := by omega
    obtain ⟨v, hv⟩ : ∃ v, acc[t]? = some v := ⟨_, List.getElem?_eq_getElem ht'⟩
    rw [hv, List.getD_eq_getElem?_getD, hv, Option.getD_some]
  | cons h hs ih =>
    intro acc hall hlen t ht
    rw [List.foldl_cons]
    have hh : h.length = p.T + 1 := hall h (List.mem_cons_self h hs)
    have hzlen : (List.zipWith (fun acc x => acc + f x) acc h).length
        = p.T + 1 := by
      rw [List.length_zipWith, hlen, hh]
      omega
    rw [ih _ (fun h' hm => hall h' (List.mem_cons_of_mem h hm)) hzlen t ht]
    have ht' : t < acc.length := by omega
    have hth : t < h.length := by omega
    obtain ⟨a, ha⟩ : ∃ a, acc[t]? = some a := ⟨_, List.getElem?_eq_getElem ht'⟩
    obtain ⟨b, hb⟩ : ∃ b, h[t]? = some b := ⟨_, List.getElem?_eq_getElem hth⟩
    simp only [List.getD_eq_getElem?_getD, List.getElem?_zipWith, ha, hb,
      Option.getD_some, List.map_cons, List.sum_cons, Option.some.injEq]
    omega

theorem sum_map_list_range (f : ℕ → ℕ) :
    ∀ n, ((List.range n).map f).sum = ∑ k ∈ Finset.range n, f k := by
  intro n
  induction n with
  | zero => rfl
  | succ n ih =>
    rw [List.range_succ, List.map_append, List.sum_append,
      Finset.sum_range_succ, ih]
    simp

/-- Claim C4: Aggregation correctness: for every `Nexp ≥ 1` and `t ∈ [0,T]`, the
exported `mean` component at `t` equals the arithmetic mean over the `Nexp`
runs of the corresponding count at `t` (for each of the three components,
abstracted by the field accessor `f`); and the accumulation fold is
order-insensitive — any permutation of the runs yields the same sums. -/
theorem claim_C4 (p : Params) (g0 : Grid) (us : ℕ → ℕ → ℚ) (nexp : ℕ)
    (hn : 1 ≤ nexp) (t : ℕ) (ht : t ≤ p.T) (f : StepRecord → ℕ) :
    (exportMean p g0 us nexp f)[t]?
      = some ((∑ k ∈ Finset.range nexp,
          (f (((exportRuns p g0 us nexp).getD k []).getD t ⟨0, 0, 0, 0⟩) : ℚ))
            / (nexp : ℚ)) ∧
      ∀ l₁ l₂ : List (List StepRecord), l₁.Perm l₂ →
        accumulate p f l₁ = accumulate p f l₂ := by
  constructor
  · have hall : ∀ h ∈ exportRuns p g0 us nexp, h.length = p.T + 1 := by
      intro h hm
      rw [exportRuns] at hm
      obtain ⟨k, _, rfl⟩ := List.mem_map.1 hm
      exact runOnce_length p g0 (us k)
    have hrep : (List.replicate (p.T + 1) (0 : ℕ)).length = p.T + 1 :=
      List.length_replicate _ _
    have hacc := accumulate_go p f (exportRuns p g0 us nexp)
      (List.replicate (p.T + 1) 0) hall hrep t ht
    have hunfold : exportMean p g0 us nexp f
        = (List.foldl (fun acc h => List.zipWith (fun acc x => acc + f x) acc h)
            (List.replicate (p.T + 1) 0)
            (exportRuns p g0 us nexp)).map
              (fun v : ℕ => (v : ℚ) / (nexp : ℚ)) :=
      rfl
    rw [hunfold, List.getElem?_map, hacc, Option.map_some']
    congr 1
    have hrepD : (List.replicate (p.T + 1) (0 : ℕ)).getD t 0 = 0 := by
      rw [List.getD_eq_getElem?_getD, List.getElem?_replicate,
        if_pos (show t < p.T + 1 by omega)]
      rfl
    rw [hrepD, Nat.zero_add]
    have hsum : ((exportRuns p g0 us nexp).map
          (fun h => f (h.getD t ⟨0, 0, 0, 0⟩))).sum
        = ∑ k ∈ Finset.range nexp,
            f ((runOnce p g0 (us k)).getD t ⟨0, 0, 0, 0⟩) := by
      rw [exportRuns, List.map_map]
      exact sum_map_list_range _ nexp
    rw [hsum]
    have hcongr : ∀ k ∈ Finset.range nexp,
        (f (((exportRuns p g0 us nexp).getD k []).getD t ⟨0, 0, 0, 0⟩) : ℚ)
          = (f ((runOnce p g0 (us k)).getD t ⟨0, 0, 0, 0⟩) : ℚ) := by
      intro k hk
      rw [exportRuns_getD p g0 us nexp k (Finset.mem_range.1 hk)]
    rw [Finset.sum_congr rfl hcongr]
    rw [Nat.cast_sum]
  · intro l₁ l₂ hperm
    simp only [accumulate]
    exact hperm.foldl_eq' (fun x _ y _ z => zipWith_add_right_comm f z x y) _

/-- Witness for C4 at a concrete input: a single run of the scenario batch,
`t = 0`, on the Susceptible component. -/
theorem claim_C4_witness :
    (exportMean pScen gScen (fun _ => uScen) 1 StepRecord.s)[(0 : ℕ)]?
      = some ((∑ k ∈ Finset.range 1,
          (StepRecord.s (((exportRuns pScen gScen (fun _ => uScen) 1).getD k
              []).getD 0 ⟨0, 0, 0, 0⟩) : ℚ)) / ((1 : ℕ) : ℚ)) ∧
      ∀ l₁ l₂ : List (List StepRecord), l₁.Perm l₂ →
        accumulate pScen StepRecord.s l₁ = accumulate pScen StepRecord.s l₂ :=
  claim_C4 pScen gScen (fun _ => uScen) 1 (by decide) 0 (by decide)
    StepRecord.s

/-! ### The seeded initializer -/

theorem draw_lt (m : ℕ) (hm : 1 ≤ m) (q : ℚ) (h0 : 0 ≤ q) (h1 : q < 1) :
    (⌊q * (m : ℚ)⌋).toNat < m := by
  have hmpos : (0 : ℚ) < (m : ℚ) := by
    exact_mod_cast Nat.pos_of_ne_zero (by omega)
  have hqm : q * (m : ℚ) < (m : ℚ) := by
    calc q * (m : ℚ) < 1 * (m : ℚ) := mul_lt_mul_of_pos_right h1 hmpos
      _ = (m : ℚ) := one_mul _
  have hfl : ⌊q * (m : ℚ)⌋ < (m : ℤ) := by
    rw [Int.floor_lt]
    exact_mod_cast hqm
  have hfl0 : (0 : ℤ) ≤ ⌊q * (m : ℚ)⌋ :=
    Int.floor_nonneg.2 (mul_nonneg h0 (le_of_lt hmpos))
  omega

theorem zeroGrid_cellAt (p : Params) (x y : ℕ) (hx : x < p.M) (hy : y < p.N) :
    cellAt (zeroGrid p) x y = some 0 := by
  have h1 : (List.replicate p.M (List.replicate p.N (0 : ℕ))).get? x
      = some (List.replicate p.N 0) := by
    rw [List.get?_eq_getElem?, List.getElem?_replicate, if_pos hx]
  have h2 : (List.replicate p.N (0 : ℕ)).get? y = some 0 := by
    rw [List.get?_eq_getElem?, List.getElem?_replicate, if_pos hy]
  simp only [cellAt, zeroGrid, h1, h2]

theorem cellAt_setCell_same (g : Grid) (x y v : ℕ) (row : List ℕ)
    (hx : x < g.length) (hrow : g.get? x = some row) (hy : y < row.length) :
    cellAt (setCell g x y v) x y = some v := by
  have hgetD : g.getD x [] = row := by
    rw [List.getD_eq_get?, hrow]
    rfl
  rw [setCell, hgetD]
  have h1 : (g.set x (row.set y v)).get? x = some (row.set y v) :=
    List.get?_set_eq_of_lt _ hx
  have h2 : (row.set y v).get? y = some v := List.get?_set_eq_of_lt _ hy
  simp only [cellAt, h1, h2]

theorem cellAt_setCell_ne (g : Grid) (x y v a b : ℕ)
    (hne : ¬(a = x ∧ b = y)) :
    cellAt (setCell g x y v) a b = cellAt g a b := by
  by_cases hax : a = x
  · subst hax
    have hby : y ≠ b := fun h => hne ⟨rfl, h.symm⟩
    by_cases ha : a < g.length
    · obtain ⟨row, hrow⟩ : ∃ row, g.get? a = some row :=
        ⟨_, List.get?_eq_get ha⟩
      have hgetD : g.getD a [] = row := by
        rw [List.getD_eq_get?, hrow]
        rfl
      rw [setCell, hgetD]
      have h1 : (g.set a (row.set y v)).get? a = some (row.set y v) :=
        List.get?_set_eq_of_lt _ ha
      have h2 : (row.set y v).get? b = row.get? b :=
        List.get?_set_ne _ _ hby
      simp only [cellAt, h1, h2, hrow]
    · have ha' : g.length ≤ a := by omega
      have h1 : (g.set a ((g.getD a []).set y v)).get? a = none := by
        rw [List.get?_eq_getElem?, List.getElem?_eq_none]
        rw [List.length_set]
        exact ha'
      have h2 : g.get? a = none := by
        rw [List.get?_eq_getElem?, List.getElem?_eq_none]
        exact ha'
      simp only [setCell, cellAt, h1, h2]
  · have h1 : (g.set x ((g.getD x []).set y v)).get? a = g.get? a :=
      List.get?_set_ne _ _ (fun hh => hax hh.symm)
    simp only [setCell, cellAt, h1]

theorem initInv_zero (p : Params) : InitInv p [] (zeroGrid p) 0 := by
  refine ⟨?_, ?_, rfl, List.nodup_nil, ?_, ?_, ?_, ?_⟩
  · rw [zeroGrid]
    exact List.length_replicate _ _
  · intro x hx
    refine ⟨List.replicate p.N 0, ?_, List.length_replicate _ _⟩
    rw [zeroGrid, List.get?_eq_getElem?, List.getElem?_replicate, if_pos hx]
  · intro q hq
    exact absurd hq (List.not_mem_nil q)
  · intro x y hx hy
    constructor
    · intro h1
      rw [zeroGrid_cellAt p x y hx hy] at h1
      exact absurd h1 (by decide)
    · intro h1
      exact absurd h1 (List.not_mem_nil _)
  · intro x y hx hy
    exact Or.inl (zeroGrid_cellAt p x y hx hy)
  · omega

theorem InitInv.insert {p : Params} {used : List (ℕ × ℕ)} {g : Grid}
    {placed : ℕ} (inv : InitInv p used g placed) (x y : ℕ) (hx : x < p.M)
    (hy : y < p.N) (hmem : (x, y) ∉ used) (hlt : placed < p.I0) :
    InitInv p ((x, y) :: used) (setCell g x y 1) (placed + 1) := by
  obtain ⟨len, rows, placed_eq, nodup, bounds, one_iff, zero_or_one,
    placed_le⟩ := inv
  obtain ⟨rowx, hrowx, hrowxlen⟩ := rows x hx
  have hxg : x < g.length := by omega
  have hyr : y < rowx.length := by omega
  refine ⟨?_, ?_, ?_, ?_, ?_, ?_, ?_, ?_⟩
  · rw [setCell, List.length_set]
    exact len
  · intro a ha
    by_cases hax : a = x
    · subst hax
      refine ⟨rowx.set y 1, ?_, by rw [List.length_set]; exact hrowxlen⟩
      have hgetD : g.getD a [] = rowx := by
        rw [List.getD_eq_get?, hrowx]
        rfl
      rw [setCell, hgetD]
      exact List.get?_set_eq_of_lt _ hxg
    · obtain ⟨row, hrow, hrl⟩ := rows a ha
      refine ⟨row, ?_, hrl⟩
      rw [setCell]
      rw [List.get?_set_ne _ _ (fun hh => hax hh.symm)]
      exact hrow
  · simp [placed_eq]
  · exact List.nodup_cons.2 ⟨hmem, nodup⟩
  · intro q hq
    rcases List.mem_cons.1 hq with rfl | hq'
    · exact ⟨hx, hy⟩
    · exact bounds q hq'
  · intro a b ha hb
    by_cases heq : a = x ∧ b = y
    · obtain ⟨rfl, rfl⟩ := heq
      rw [cellAt_setCell_same g a b 1 rowx hxg hrowx hyr]
      simp
    · rw [cellAt_setCell_ne g x y 1 a b heq, List.mem_cons]
      constructor
      · intro h1
        exact Or.inr ((one_iff a b ha hb).1 h1)
      · intro h1
        rcases h1 with heq2 | h1'
        · rw [Prod.mk.injEq] at heq2
          exact absurd heq2 heq
        · exact (one_iff a b ha hb).2 h1'
  · intro a b ha hb
    by_cases heq : a = x ∧ b = y
    · obtain ⟨rfl, rfl⟩ := heq
      exact Or.inr (cellAt_setCell_same g a b 1 rowx hxg hrowx hyr)
    · rw [cellAt_setCell_ne g x y 1 a b heq]
      exact zero_or_one a b ha hb
  · omega

theorem makeInitialGridAux_sound (p : Params) (u : ℕ → ℚ)
    (hu : validStream u) (hM : 1 ≤ p.M) (hN : 1 ≤ p.N) :
    ∀ (fuel k : ℕ) (used : List (ℕ × ℕ)) (g : Grid) (placed : ℕ),
      InitInv p used g placed →
      ∀ gg : Grid, makeInitialGridAux p u fuel k used g placed = some gg →
        ∃ used' : List (ℕ × ℕ), InitInv p used' gg p.I0 ∧
          used'.length = p.I0 := by
  intro fuel
  induction fuel with
  | zero =>
    intro k used g placed _ gg h
    exact absurd h (by simp [makeInitialGridAux])
  | succ fuel ih =>
    intro k used g placed inv gg h
    simp only [makeInitialGridAux] at h
    by_cases hpl : placed < p.I0
    · rw [if_pos hpl] at h
      by_cases hmem :
          ((⌊u k * (p.M : ℚ)⌋).toNat, (⌊u (k + 1) * (p.N : ℚ)⌋).toNat) ∈ used
      · rw [if_pos hmem] at h
        exact ih (k + 2) used g placed inv gg h
      · rw [if_neg hmem] at h
        have hx : (⌊u k * (p.M : ℚ)⌋).toNat < p.M :=
          draw_lt p.M hM _ (hu k).1 (hu k).2
        have hy : (⌊u (k + 1) * (p.N : ℚ)⌋).toNat < p.N :=
          draw_lt p.N hN _ (hu (k + 1)).1 (hu (k + 1)).2
        exact ih (k + 2) _ _ _ (inv.insert _ _ hx hy hmem hpl) gg h
    · rw [if_neg hpl] at h
      have hgg : g = gg := by injection h
      subst hgg
      have hple : placed ≤ p.I0 := inv.placed_le
      have hplaced : placed = p.I0 := by omega
      subst hplaced
      exact ⟨used, inv, inv.placed_eq.symm⟩

theorem InitInv.counts {p : Params} {used : List (ℕ × ℕ)} {g : Grid}
    (inv : InitInv p used g p.I0) :
    (countStates p g).i = used.length ∧
      (countStates p g).s = p.M * p.N - used.length ∧
      (countStates p g).r = 0 := by
  have hi : ((cells p).filter (fun q => cellAt g q.1 q.2 = some 1))
      = used.toFinset := by
    ext q
    rw [Finset.mem_filter, List.mem_toFinset]
    constructor
    · rintro ⟨hc, h1⟩
      obtain ⟨hqx, hqy⟩ := mem_cells p q hc
      exact (inv.one_iff q.1 q.2 hqx hqy).1 h1
    · intro hq
      have hb := inv.bounds q hq
      refine ⟨?_, (inv.one_iff q.1 q.2 hb.1 hb.2).2 hq⟩
      rw [cells, Finset.mem_product, Finset.mem_range, Finset.mem_range]
      exact hb
  have hicard : (countStates p g).i = used.length := by
    show ((cells p).filter _).card = _
    rw [hi, List.toFinset_card_of_nodup inv.nodup]
  have hrz : (countStates p g).r = 0 := by
    show ((cells p).filter _).card = 0
    rw [Finset.card_eq_zero, Finset.filter_eq_empty_iff]
    intro q hq
    obtain ⟨hqx, hqy⟩ := mem_cells p q hq
    rcases inv.zero_or_one q.1 q.2 hqx hqy with h | h
    · simp [h]
    · simp [h]
  have hsum := countStates_sum p g
  exact ⟨hicard, by omega, hrz⟩

/-- Claim C2: Initializer exactness: whenever the placement loop of
`makeInitialGrid` returns (within any iteration bound), the resulting grid
holds exactly `I0` distinct Infected cells and the remaining `M·N − I0`
cells are Susceptible (none Recovered). -/
theorem claim_C2 (p : Params) (u : ℕ → ℚ) (fuel : ℕ) (g : Grid)
    (hM : 1 ≤ p.M) (hN : 1 ≤ p.N) (hI : p.I0 ≤ p.M * p.N)
    (hu : validStream u) (hg : makeInitialGrid p u fuel = some g) :
    (countStates p g).i = p.I0 ∧
      (countStates p g).s = p.M * p.N - p.I0 ∧
      (countStates p g).r = 0 := by
  rw [makeInitialGrid] at hg
  obtain ⟨used, inv, hlen⟩ := makeInitialGridAux_sound p u hu hM hN fuel 0 []
    (zeroGrid p) 0 (initInv_zero p) g hg
  have := inv.counts
  rw [hlen] at this
  exact this

theorem makeInitialGrid_init2 : makeInitialGrid pInit2 uInit2 5
    = some [[1, 0], [0, 1]] := by
  norm_num [makeInitialGrid, makeInitialGridAux, zeroGrid, setCell, uInit2,
    pInit2]
  decide

/-- Witness for C2 at a concrete input: the 2×2 grid with `I0 = 2` built
from a stream hitting `(0,0)` then `(1,1)`. -/
theorem claim_C2_witness :
    (countStates pInit2 [[1, 0], [0, 1]]).i = Params.I0 pInit2 ∧
      (countStates pInit2 [[1, 0], [0, 1]]).s
        = Params.M pInit2 * Params.N pInit2 - Params.I0 pInit2 ∧
      (countStates pInit2 [[1, 0], [0, 1]]).r = 0 :=
  claim_C2 pInit2 uInit2 5 [[1, 0], [0, 1]] (by decide) (by decide)
    (by decide)
    (by
      intro n
      rw [uInit2]
      constructor <;> (split <;> norm_num))
    makeInitialGrid_init2

theorem makeInitialGridAux_none (p : Params) (u : ℕ → ℚ)
    (hu : validStream u) (hM : 1 ≤ p.M) (hN : 1 ≤ p.N)
    (hI : p.M * p.N < p.I0) :
    ∀ (fuel k : ℕ) (used : List (ℕ × ℕ)) (g : Grid) (placed : ℕ),
      placed = used.length → used.Nodup →
      (∀ q ∈ used, q.1 < p.M ∧ q.2 < p.N) →
      makeInitialGridAux p u fuel k used g placed = none := by
  intro fuel
  induction fuel with
  | zero => intro k used g placed _ _ _; rfl
  | succ fuel ih =>
    intro k used g placed hpl hnd hbd
    have hlen : used.length ≤ p.M * p.N := by
      have h1 : used.toFinset.card = used.length :=
        List.toFinset_card_of_nodup hnd
      have h2 : used.toFinset ⊆ cells p := by
        intro q hq
        rw [List.mem_toFinset] at hq
        rw [cells, Finset.mem_product, Finset.mem_range, Finset.mem_range]
        exact hbd q hq
      have h3 := Finset.card_le_card h2
      have h4 : (cells p).card = p.M * p.N := by
        rw [cells, Finset.card_product, Finset.card_range, Finset.card_range]
      omega
    simp only [makeInitialGridAux]
    rw [if_pos (show placed < p.I0 by omega)]
    by_cases hmem :
        ((⌊u k * (p.M : ℚ)⌋).toNat, (⌊u (k + 1) * (p.N : ℚ)⌋).toNat) ∈ used
    · rw [if_pos hmem]
      exact ih (k + 2) used g placed hpl hnd hbd
    · rw [if_neg hmem]
      apply ih (k + 2)
      · simp [hpl]
      · exact List.nodup_cons.2 ⟨hmem, hnd⟩
      · intro q hq
        rcases List.mem_cons.1 hq with rfl | hq'
        · exact ⟨draw_lt p.M hM _ (hu k).1 (hu k).2,
            draw_lt p.N hN _ (hu (k + 1)).1 (hu (k + 1)).2⟩
        · exact hbd q hq'

/-- Claim C8 fails as stated: `makeInitialGrid` performs no validation and raises
no `ConfigurationError` — with `I0 = 2 > 1 = M·N` the placement loop is
still running (no result, no error) after 100 iterations. -/
theorem claim_C8_counterexample :
    Params.M pOver * Params.N pOver < Params.I0 pOver ∧
      makeInitialGrid pOver uZero 100 = none := by
  refine ⟨by decide, ?_⟩
  rw [makeInitialGrid]
  apply makeInitialGridAux_none pOver uZero ?_ (by decide) (by decide)
    (by decide) 100 0 [] (zeroGrid pOver) 0 rfl List.nodup_nil
    (by intro q hq; exact absurd hq (List.not_mem_nil q))
  intro n
  rw [uZero]
  norm_num

/-- Claim C8 (amended): for `I0 > M·N` the initializer neither fails fast with an
error nor clamps `I0`: its placement loop can never complete (at most `M·N`
distinct coordinates exist), so it returns nothing at every iteration
bound; validation is absent. -/
theorem claim_C8 (p : Params) (u : ℕ → ℚ) (hM : 1 ≤ p.M) (hN : 1 ≤ p.N)
    (hI : p.M * p.N < p.I0) (hu : validStream u) :
    ∀ fuel, makeInitialGrid p u fuel = none := by
  intro fuel
  rw [makeInitialGrid]
  exact makeInitialGridAux_none p u hu hM hN hI fuel 0 [] (zeroGrid p) 0 rfl
    List.nodup_nil (by intro q hq; exact absurd hq (List.not_mem_nil q))

/-- Witness for C8 at a concrete input. -/
theorem claim_C8_witness : makeInitialGrid pOver uZero 7 = none :=
  claim_C8 pOver uZero (by decide) (by decide) (by decide)
    (by intro n; rw [uZero]; norm_num) 7

end SIR
